import Mathlib

/-!
# Verification of the `csc411_rpegio` rpeg container decoder/encoder

Shallow embedding of `src/src/lib.rs`. Byte streams are modelled as
`List Nat` (each element an octet value), the `Peekable<impl Iterator<Item = u8>>`
cursor as the remaining suffix of the list (`next` = uncons, `peek` = head).
Rust `Result<T, String>` becomes `Except RpegError T`, where `RpegError` has one
constructor per distinct `format!` error string of the source. A Rust `panic!`
is a distinct outcome constructor (`fatal`), since it is not a returned error.
`u32` arithmetic is modelled as `Nat` with an explicit `% 4294967296` at the
one place the source performs arithmetic that can overflow (release-build
wrapping semantics; a debug build would abort there instead — either way no
overflow *error value* is ever produced).

The I/O layer (`read_raw_bytes`, stdin/file selection, writing to stdout) is
modelled away: `read_in_rpeg_data` takes the acquired byte list directly, and
the two output functions return the list of bytes they would write to stdout,
in order (`println!` emits its text followed by a single 0x0A byte).
-/

namespace Rpegio

/-- One distinct error constructor per distinct error `format!` string in
`src/src/lib.rs` (the payload fields are the interpolated values). -/
inductive RpegError where
  /-- `"Expected 0x{expected_byte:02X}, found 0x{byte:02X}"` (in `expect`). -/
  | unexpectedByte (expected found : Nat)
  /-- `"Ran out of bytes before expected 0x{expected_byte:02X} byte"` (in `expect`). -/
  | ranOutBeforeExpected (expected : Nat)
  /-- `"Unsupported line ending"` (in `expect_newline`, CR not followed by LF). -/
  | unsupportedLineEnding
  /-- `"Expected newline byte(s), found 0x{byte:02X}"` (in `expect_newline`). -/
  | expectedNewlineFound (found : Nat)
  /-- `"Ran out of bytes before expected newline byte(s)"` (in `expect_newline`). -/
  | ranOutBeforeNewline
  /-- `"Didn't find a number where a number was expected in input"` (in `read_u32`). -/
  | expectedNumber
  /-- `"Attempted to parse non-ascii digit {:?}"` (in `parse_ascii_digit`). -/
  | nonAsciiDigit (byte : Nat)
deriving DecidableEq, Repr

/-- Rust `[u8; 4]`: one opaque 4-byte word of payload. -/
structure Word where
  b0 : Nat
  b1 : Nat
  b2 : Nat
  b3 : Nat
deriving DecidableEq, Repr

/-- The four bytes of a word, in wire order. -/
def wordBytes (w : Word) : List Nat := [w.b0, w.b1, w.b2, w.b3]

/-- `fn expect(expected_bytes, peekable_bytes_iter)` from the source.

The source iterates over `expected_bytes`, but every arm of the loop body
`return`s on the first iteration: `Err` on exhaustion, `Err` on mismatch, and —
the early-return slip — `Ok(())` on a match. So the translation is
non-recursive: with a non-empty expected literal exactly one input byte is
consumed and compared; with an empty literal the loop body never runs. -/
def expect (expected_bytes : List Nat) (it : List Nat) : Except RpegError (List Nat) :=
  match expected_bytes with
  | [] => .ok it
  | expected_byte :: _ =>
    match it with
    | [] => .error (.ranOutBeforeExpected expected_byte)
    | byte :: rest =>
      if byte ≠ expected_byte then .error (.unexpectedByte expected_byte byte)
      else .ok rest

/-- `fn expect_newline(peekable_bytes_iter)` from the source: consume `0x0A`,
or consume `0x0D` and then additionally consume a peeked `0x0A`; a `0x0D` whose
peeked successor is not `0x0A` (or is absent) is `Err("Unsupported line ending")`. -/
def expect_newline (it : List Nat) : Except RpegError (List Nat) :=
  match it with
  | [] => .error .ranOutBeforeNewline
  | byte :: rest =>
    if byte = 0x0A then .ok rest
    else if byte = 0x0D then
      match rest with
      | next :: rest' =>
          if next = 0x0A then .ok rest' else .error .unsupportedLineEnding
      | [] => .error .unsupportedLineEnding
    else .error (.expectedNewlineFound byte)

/-- `fn is_ascii_digit(byte)` from the source: `b'0' <= *byte && *byte <= b'9'`. -/
def is_ascii_digit (byte : Nat) : Bool := 0x30 ≤ byte && byte ≤ 0x39

/-- `fn parse_ascii_digit(digit)` from the source. -/
def parse_ascii_digit (digit : Nat) : Except RpegError Nat :=
  if ¬ is_ascii_digit digit then .error (.nonAsciiDigit digit)
  else .ok (digit - 0x30)

/-- The `while` loop of `read_u32`: as long as the peeked byte is an ASCII
digit, fold it into `num` with `num = num * 10 + digit` (`u32` arithmetic,
hence the `% 4294967296`) and advance; stop — without consuming — at the first
non-digit or at end of stream. The source's `next_byte.ok_or(...)?` inside the
loop can never take its error branch (`is_some` was just checked), so it is the
plain digit value here. -/
def read_u32_go (num : Nat) : List Nat → Except RpegError (Nat × List Nat)
  | [] => .ok (num, [])
  | byte :: rest =>
    if is_ascii_digit byte then
      match parse_ascii_digit byte with
      | .error e => .error e
      | .ok d => read_u32_go ((num * 10 + d) % 4294967296) rest
    else .ok (num, byte :: rest)

/-- `fn read_u32(peekable_bytes_iter)` from the source: the first peeked byte
must exist and be an ASCII digit (else the `"Didn't find a number..."` error);
it seeds the accumulator, then the `while` loop consumes the remaining digits. -/
def read_u32 (it : List Nat) : Except RpegError (Nat × List Nat) :=
  match it with
  | [] => .error .expectedNumber
  | byte :: rest =>
    if ¬ is_ascii_digit byte then .error .expectedNumber
    else
      match parse_ascii_digit byte with
      | .error e => .error e
      | .ok num => read_u32_go num rest

/-- The bytes of the ASCII literal `b"Compressed image format 2"`. -/
def headerTag : List Nat := "Compressed image format 2".toList.map Char.toNat

/-- The final grouping loop of `read_in_rpeg_data`: `raw_bytes.chunks(4)` with
each chunk rebuilt as `[chunk[0], chunk[1], chunk[2], chunk[3]]`. The loop is
only ever reached when `raw_bytes.len() % 4 == 0` (the source checks, and
aborts, just before), so the leftover case of fewer than 4 bytes is dead code
there; this translation maps such a (unreachable) leftover to nothing. -/
def group4 : List Nat → List Word
  | b0 :: b1 :: b2 :: b3 :: rest => ⟨b0, b1, b2, b3⟩ :: group4 rest
  | _ => []

/-- The message of the `panic!` in `read_in_rpeg_data`. -/
def misalignedMsg : String := "The number of raw bytes was not a multiple of four"

/-- Outcome of a call to `read_in_rpeg_data` on given input bytes: a returned
`Ok` tuple, a returned `Err`, or a `panic!` (process abort — not a return). -/
inductive DecodeOutcome where
  | ok (words : List Word) (width height : Nat)
  | err (e : RpegError)
  | fatal (msg : String)
deriving DecidableEq, Repr

/-- `pub fn read_in_rpeg_data(file_path)` from the source, with the byte
acquisition (`read_raw_bytes`) abstracted into the `bytes` argument: parse the
literal tag, a newline, width, a single `b" "`, height, a newline; collect the
remaining bytes; `panic!` if their count is not a multiple of 4; otherwise
group them by 4 and return `(grouped_bytes, width, height)`. Each `?` becomes
an explicit propagation match. -/
def read_in_rpeg_data (bytes : List Nat) : DecodeOutcome :=
  match expect headerTag bytes with
  | .error e => .err e
  | .ok it =>
  match expect_newline it with
  | .error e => .err e
  | .ok it =>
  match read_u32 it with
  | .error e => .err e
  | .ok (width, it) =>
  match expect [0x20] it with
  | .error e => .err e
  | .ok it =>
  match read_u32 it with
  | .error e => .err e
  | .ok (height, it) =>
  match expect_newline it with
  | .error e => .err e
  | .ok it =>
    let raw_bytes := it
    if raw_bytes.length % 4 ≠ 0 then .fatal misalignedMsg
    else .ok (group4 raw_bytes) width height

/-- Decimal digit list (most significant first) of `n`, with explicit fuel so
the definition is structural; `fuel ≥ n` makes it total on the digits of `n`. -/
def decDigits (fuel : Nat) (n : Nat) : List Nat :=
  match fuel with
  | 0 => []
  | fuel + 1 => if n = 0 then [] else decDigits fuel (n / 10) ++ [n % 10]

/-- The bytes Rust's `Display` for `u32` writes for `n` (as in
`println!("{width} {height}")`): plain decimal ASCII, no sign, no leading
zeros, and the single digit `"0"` for zero. -/
def decimalBytes (n : Nat) : List Nat :=
  if n = 0 then [0x30] else (decDigits n n).map (fun d => d + 0x30)

/-- `pub fn output_rpeg_data(raw_bytes, width, height)` from the source, as the
byte sequence appended to the stdout stream `out`: `println!` of the tag
(text plus one 0x0A), `println!` of `"{width} {height}"`, then a loop writing
each word's 4 raw bytes. -/
def output_rpeg_data (raw_bytes : List Word) (width height : Nat) (out : List Nat) : List Nat :=
  let out := out ++ headerTag ++ [0x0A]
  let out := out ++ decimalBytes width ++ [0x20] ++ decimalBytes height ++ [0x0A]
  raw_bytes.foldl (fun acc bytes => acc ++ wordBytes bytes) out

/-- One hex digit, upper case, as in Rust's `{:X}` formatting. -/
def hexDigit (n : Nat) : Nat := if n < 10 then 0x30 + n else 0x41 + (n - 10)

/-- The two bytes `{byte:02X}` writes for an octet (`byte < 256`): zero-padded
two-digit upper-case hexadecimal. -/
def hexPairBytes (byte : Nat) : List Nat := [hexDigit (byte / 16), hexDigit (byte % 16)]

/-- The bytes of the ASCII literal `"Compressed image format 2 [DEBUG]"`. -/
def debugTag : List Nat := "Compressed image format 2 [DEBUG]".toList.map Char.toNat

/-- The body of `debug_output_rpeg_data`'s double loop for one byte: a space
before every byte except the very first across the whole run (`first` flag),
then the byte's `{:02X}` pair. -/
def debugHexStep (acc : Bool × List Nat) (byte : Nat) : Bool × List Nat :=
  match acc with
  | (first, out) =>
    if first then (false, out ++ hexPairBytes byte)
    else (false, out ++ [0x20] ++ hexPairBytes byte)

/-- `pub fn debug_output_rpeg_data(raw_bytes, width, height)` from the source,
as the bytes written to stdout: two `println!` lines, then the space-separated
upper-case hex dump of every word byte with no trailing newline. -/
def debug_output_rpeg_data (raw_bytes : List Word) (width height : Nat) : List Nat :=
  let out := debugTag ++ [0x0A]
  let out := out ++ decimalBytes width ++ [0x20] ++ decimalBytes height ++ [0x0A]
  (raw_bytes.foldl (fun acc bytes => (wordBytes bytes).foldl debugHexStep acc) (true, out)).2

/-- ASCII byte list of a string literal (used to write concrete inputs). -/
def asciiBytes (s : String) : List Nat := s.toList.map Char.toNat

/-- Decimal accumulation exactly as `read_u32` performs it: `u32` fold
`num = num * 10 + (digit - b'0')` over a digit-byte list, starting from 0. -/
def accumulateDecimal (ds : List Nat) : Nat :=
  ds.foldl (fun num d => (num * 10 + (d - 0x30)) % 4294967296) 0

/-- Upper-case hexadecimal character bytes: `0`–`9` or `A`–`F`. -/
def isUpperHexByte (c : Nat) : Bool := (0x30 ≤ c && c ≤ 0x39) || (0x41 ≤ c && c ≤ 0x46)

/-- Blocks joined by single separators with no separator before the first
block (and nothing after the last), as the spec words the hex dump. -/
def spaceSeparated : List (List Nat) → List Nat
  | [] => []
  | x :: xs => x ++ xs.flatMap (fun y => 0x20 :: y)

/-- The encoder output as the spec's §4.4 contract words it: the tag literal,
one LF, decimal width, one space, decimal height, one LF, then each word's 4
bytes in sequence order with no separators, length prefix, or terminator.
(Comparison definition for the refinement claims; the source-derived encoder
is `output_rpeg_data`.) -/
def encoderSpecBytes (words : List Word) (width height : Nat) : List Nat :=
  headerTag ++ [0x0A] ++ decimalBytes width ++ [0x20] ++ decimalBytes height ++ [0x0A]
    ++ words.flatMap wordBytes

/-- The debug formatter output as the spec's §4.5 contract words it: the debug
tag line, the `width height` line, then every word byte as an upper-case
two-digit hex pair, pairs separated by single spaces, no separator before the
first byte and no trailing newline. (Comparison definition; the source-derived
formatter is `debug_output_rpeg_data`.) -/
def debugSpecBytes (words : List Word) (width height : Nat) : List Nat :=
  debugTag ++ [0x0A] ++ decimalBytes width ++ [0x20] ++ decimalBytes height ++ [0x0A]
    ++ spaceSeparated ((words.flatMap wordBytes).map hexPairBytes)

/-! ### Helper lemmas -/

theorem headerTag_bytes : headerTag = [0x43, 0x6F, 0x6D, 0x70, 0x72, 0x65, 0x73, 0x73,
    0x65, 0x64, 0x20, 0x69, 0x6D, 0x61, 0x67, 0x65, 0x20, 0x66, 0x6F, 0x72, 0x6D,
    0x61, 0x74, 0x20, 0x32] := rfl

theorem expect_headerTag_C (l : List Nat) : expect headerTag (0x43 :: l) = .ok l := rfl

theorem expect_newline_lf (l : List Nat) : expect_newline (0x0A :: l) = .ok l := rfl

theorem expect_newline_crlf (l : List Nat) : expect_newline (0x0D :: 0x0A :: l) = .ok l := rfl

theorem expect_newline_not_nl (b : Nat) (l : List Nat) (h1 : b ≠ 0x0A) (h2 : b ≠ 0x0D) :
    expect_newline (b :: l) = .error (.expectedNewlineFound b) := by
  simp [expect_newline, h1, h2]

theorem read_u32_go_eq (l : List Nat) (num : Nat) :
    read_u32_go num l =
      .ok ((l.takeWhile is_ascii_digit).foldl
             (fun n d => (n * 10 + (d - 0x30)) % 4294967296) num,
           l.dropWhile is_ascii_digit) := by
  induction l generalizing num with
  | nil => rfl
  | cons b rest ih =>
    by_cases hb : is_ascii_digit b
    · simp [read_u32_go, parse_ascii_digit, hb, List.takeWhile_cons, List.dropWhile_cons, ih]
    · simp [read_u32_go, hb, List.takeWhile_cons, List.dropWhile_cons]

theorem read_u32_eq (bs : List Nat) :
    read_u32 bs =
      match bs.head? with
      | none => .error .expectedNumber
      | some b =>
        if is_ascii_digit b then
          .ok (accumulateDecimal (bs.takeWhile is_ascii_digit), bs.dropWhile is_ascii_digit)
        else .error .expectedNumber := by
  match bs with
  | [] => rfl
  | b :: rest =>
    by_cases hb : is_ascii_digit b
    · have hle : b ≤ 0x39 := by
        have := hb
        simp [is_ascii_digit] at this
        omega
      simp only [read_u32, parse_ascii_digit, hb, not_true_eq_false, if_false, if_true,
        read_u32_go_eq, accumulateDecimal, List.head?_cons, List.takeWhile_cons,
        List.dropWhile_cons, List.foldl_cons]
      rw [show (0 * 10 + (b - 0x30)) % 4294967296 = b - 0x30 by omega]
    · simp [read_u32, hb]

theorem takeWhile_append_stop {p : Nat → Bool} (l : List Nat) (x : Nat) (r : List Nat)
    (hl : ∀ b ∈ l, p b = true) (hx : p x = false) :
    (l ++ x :: r).takeWhile p = l := by
  induction l with
  | nil => simp [List.takeWhile_cons, hx]
  | cons a t ih =>
    have ha : p a = true := hl a (by simp)
    simp only [List.cons_append, List.takeWhile_cons, ha, if_true]
    rw [ih (fun b hb => hl b (by simp [hb]))]

theorem dropWhile_append_stop {p : Nat → Bool} (l : List Nat) (x : Nat) (r : List Nat)
    (hl : ∀ b ∈ l, p b = true) (hx : p x = false) :
    (l ++ x :: r).dropWhile p = x :: r := by
  induction l with
  | nil => simp [List.dropWhile_cons, hx]
  | cons a t ih =>
    have ha : p a = true := hl a (by simp)
    simp only [List.cons_append, List.dropWhile_cons, ha, if_true]
    exact ih (fun b hb => hl b (by simp [hb]))

/-- `read_u32` on a non-empty all-digit run followed by a non-digit byte:
consume exactly the run, return its accumulated value, leave the rest. -/
theorem read_u32_digits_then (d : List Nat) (x : Nat) (r : List Nat)
    (hne : d ≠ []) (hd : ∀ b ∈ d, is_ascii_digit b = true) (hx : is_ascii_digit x = false) :
    read_u32 (d ++ x :: r) = .ok (accumulateDecimal d, x :: r) := by
  match d, hne with
  | b :: t, _ =>
    have hb : is_ascii_digit b = true := hd b (by simp)
    rw [read_u32_eq]
    simp only [List.cons_append, List.head?_cons, hb, if_true]
    rw [← List.cons_append, takeWhile_append_stop (b :: t) x r hd hx,
      dropWhile_append_stop (b :: t) x r hd hx]

theorem expect_space (l : List Nat) : expect [0x20] (0x20 :: l) = .ok l := rfl

/-- The encoder output, flattened: the source's `foldl` of per-word appends
equals a single concatenation. -/
theorem foldl_append_flatMap (ws : List Word) (acc : List Nat) :
    ws.foldl (fun a bytes => a ++ wordBytes bytes) acc = acc ++ ws.flatMap wordBytes := by
  induction ws generalizing acc with
  | nil => simp
  | cons w t ih => simp [List.foldl_cons, ih]

theorem output_rpeg_data_eq (ws : List Word) (w h : Nat) (out : List Nat) :
    output_rpeg_data ws w h out =
      out ++ headerTag ++ [0x0A] ++ decimalBytes w ++ [0x20] ++ decimalBytes h ++ [0x0A]
        ++ ws.flatMap wordBytes := by
  simp [output_rpeg_data, foldl_append_flatMap]

/-- Because `expect` consumes only the first byte of the tag literal,
`read_in_rpeg_data` accepts any input of the shape: `C`, newline, digit run,
space, digit run, newline, payload — returning the two accumulated dimensions
and processing the payload according to its length. -/
theorem read_in_rpeg_data_c_shape (nl1 nl2 d1 d2 payload : List Nat)
    (h1 : nl1 = [0x0A] ∨ nl1 = [0x0D, 0x0A]) (h2 : nl2 = [0x0A] ∨ nl2 = [0x0D, 0x0A])
    (hd1ne : d1 ≠ []) (hd1 : ∀ b ∈ d1, is_ascii_digit b = true)
    (hd2ne : d2 ≠ []) (hd2 : ∀ b ∈ d2, is_ascii_digit b = true) :
    read_in_rpeg_data (0x43 :: (nl1 ++ (d1 ++ (0x20 :: (d2 ++ (nl2 ++ payload)))))) =
      if payload.length % 4 ≠ 0 then .fatal misalignedMsg
      else .ok (group4 payload) (accumulateDecimal d1) (accumulateDecimal d2) := by
  have e1 : read_u32 (d1 ++ (0x20 :: (d2 ++ (nl2 ++ payload)))) =
      .ok (accumulateDecimal d1, 0x20 :: (d2 ++ (nl2 ++ payload))) :=
    read_u32_digits_then _ _ _ hd1ne hd1 rfl
  rcases h1 with h1 | h1 <;> rcases h2 with h2 | h2 <;> subst h1 <;> subst h2
  · have e2 : read_u32 (d2 ++ 0x0A :: payload) = .ok (accumulateDecimal d2, 0x0A :: payload) :=
      read_u32_digits_then d2 0x0A payload hd2ne hd2 rfl
    simp only [List.cons_append, List.nil_append] at e1 ⊢
    simp only [read_in_rpeg_data, expect_headerTag_C, expect_newline_lf, e1, expect_space, e2]
  · have e2 : read_u32 (d2 ++ 0x0D :: 0x0A :: payload) =
        .ok (accumulateDecimal d2, 0x0D :: 0x0A :: payload) :=
      read_u32_digits_then d2 0x0D (0x0A :: payload) hd2ne hd2 rfl
    simp only [List.cons_append, List.nil_append] at e1 ⊢
    simp only [read_in_rpeg_data, expect_headerTag_C, expect_newline_lf, expect_newline_crlf,
      e1, expect_space, e2]
  · have e2 : read_u32 (d2 ++ 0x0A :: payload) = .ok (accumulateDecimal d2, 0x0A :: payload) :=
      read_u32_digits_then d2 0x0A payload hd2ne hd2 rfl
    simp only [List.cons_append, List.nil_append] at e1 ⊢
    simp only [read_in_rpeg_data, expect_headerTag_C, expect_newline_lf, expect_newline_crlf,
      e1, expect_space, e2]
  · have e2 : read_u32 (d2 ++ 0x0D :: 0x0A :: payload) =
        .ok (accumulateDecimal d2, 0x0D :: 0x0A :: payload) :=
      read_u32_digits_then d2 0x0D (0x0A :: payload) hd2ne hd2 rfl
    simp only [List.cons_append, List.nil_append] at e1 ⊢
    simp only [read_in_rpeg_data, expect_headerTag_C, expect_newline_crlf, e1, expect_space, e2]

/-- Regrouping by 4 loses nothing when the length is a multiple of 4:
flattening the words gives back the byte list (no truncation, no padding). -/
theorem group4_flatMap : ∀ l : List Nat, l.length % 4 = 0 →
    (group4 l).flatMap wordBytes = l
  | [], _ => rfl
  | [_], h => by simp at h
  | [_, _], h => by simp at h
  | [_, _, _], h => by simp at h
  | b0 :: b1 :: b2 :: b3 :: rest, h => by
    have hr : rest.length % 4 = 0 := by
      simp only [List.length_cons] at h
      omega
    have ih := group4_flatMap rest hr
    simp [group4, wordBytes, ih]

/-- Each word produced by `group4` covers exactly 4 bytes. -/
theorem group4_length : ∀ l : List Nat, l.length % 4 = 0 →
    (group4 l).length = l.length / 4
  | [], _ => rfl
  | [_], h => by simp at h
  | [_, _], h => by simp at h
  | [_, _, _], h => by simp at h
  | b0 :: b1 :: b2 :: b3 :: rest, h => by
    have hr : rest.length % 4 = 0 := by
      simp only [List.length_cons] at h
      omega
    have ih := group4_length rest hr
    simp only [group4, List.length_cons, ih]
    omega

theorem decDigits_foldl (fuel : Nat) : ∀ n : Nat, n ≤ fuel →
    (decDigits fuel n).foldl (fun a d => a * 10 + d) 0 = n := by
  induction fuel with
  | zero => intro n hn; interval_cases n; rfl
  | succ fuel ih =>
    intro n hn
    by_cases h0 : n = 0
    · simp [decDigits, h0]
    · have hlt : n / 10 ≤ fuel := by
        have := Nat.div_lt_self (Nat.pos_of_ne_zero h0) (by omega : 1 < 10)
        omega
      have := ih (n / 10) hlt
      simp only [decDigits, h0, if_false, List.foldl_append, this, List.foldl_cons,
        List.foldl_nil]
      omega

theorem decDigits_lt (fuel : Nat) : ∀ n : Nat, ∀ d ∈ decDigits fuel n, d < 10 := by
  induction fuel with
  | zero => intro n d hd; simp [decDigits] at hd
  | succ fuel ih =>
    intro n d hd
    by_cases h0 : n = 0
    · simp [decDigits, h0] at hd
    · simp only [decDigits, h0, if_false, List.mem_append, List.mem_singleton] at hd
      rcases hd with hd | hd
      · exact ih (n / 10) d hd
      · omega

/-- Reading the decimal text of `n` back as a base-10 number yields `n`:
`decimalBytes` really is the decimal text form. -/
theorem decimalBytes_val (n : Nat) :
    (decimalBytes n).foldl (fun a b => a * 10 + (b - 0x30)) 0 = n := by
  by_cases h0 : n = 0
  · simp [decimalBytes, h0]
  · simp only [decimalBytes, h0, if_false, List.foldl_map]
    rw [show (fun (x y : Nat) => x * 10 + (y + 0x30 - 0x30)) = fun (a d : Nat) => a * 10 + d by
      funext a d; omega]
    exact decDigits_foldl n n le_rfl

/-- Every byte of `decimalBytes n` is an ASCII digit. -/
theorem decimalBytes_digits (n : Nat) : (decimalBytes n).all is_ascii_digit = true := by
  by_cases h0 : n = 0
  · simp [decimalBytes, h0, is_ascii_digit]
  · simp only [decimalBytes, h0, if_false, List.all_map, List.all_eq_true, Function.comp]
    intro d hd
    have := decDigits_lt n n d hd
    simp only [is_ascii_digit, Bool.and_eq_true, decide_eq_true_eq]
    omega

theorem debugHexStep_foldl_false (bs : List Nat) (out : List Nat) :
    bs.foldl debugHexStep (false, out) =
      (false, out ++ bs.flatMap (fun b => 0x20 :: hexPairBytes b)) := by
  induction bs generalizing out with
  | nil => simp
  | cons b t ih => simp [debugHexStep, ih]

theorem debugHexStep_foldl_true (bs : List Nat) (out : List Nat) :
    (bs.foldl debugHexStep (true, out)).2 = out ++ spaceSeparated (bs.map hexPairBytes) := by
  cases bs with
  | nil => simp [spaceSeparated]
  | cons b t =>
    simp only [List.foldl_cons, debugHexStep, if_true, debugHexStep_foldl_false,
      List.map_cons, spaceSeparated]
    simp [List.flatMap_map, Function.comp, List.append_assoc]

theorem foldl_words_flat (ws : List Word) (acc : Bool × List Nat) :
    ws.foldl (fun a bytes => (wordBytes bytes).foldl debugHexStep a) acc =
      (ws.flatMap wordBytes).foldl debugHexStep acc := by
  induction ws generalizing acc with
  | nil => simp
  | cons w t ih => simp [List.foldl_append, ih]

/-- The debug formatter, flattened against the spec's wording. -/
theorem debug_output_rpeg_data_eq (ws : List Word) (w h : Nat) :
    debug_output_rpeg_data ws w h = debugSpecBytes ws w h := by
  simp only [debug_output_rpeg_data, debugSpecBytes, foldl_words_flat, debugHexStep_foldl_true]

theorem hexPairBytes_upper (b : Nat) (hb : b < 256) :
    (hexPairBytes b).length = 2 ∧ (hexPairBytes b).all isUpperHexByte = true := by
  have hdig : ∀ n : Nat, n < 16 → isUpperHexByte (hexDigit n) = true := by
    intro n hn
    simp only [hexDigit, isUpperHexByte]
    split <;> simp only [Bool.or_eq_true, Bool.and_eq_true, decide_eq_true_eq] <;> omega
  have h1 : b / 16 < 16 := by omega
  have h2 : b % 16 < 16 := by omega
  exact ⟨rfl, by simp [hexPairBytes, hdig _ h1, hdig _ h2]⟩

/-- After the one consumed `C`, any non-newline byte makes `read_in_rpeg_data`
fail in `expect_newline`. -/
theorem read_in_rpeg_data_c_bad_newline (b : Nat) (t : List Nat)
    (h1 : b ≠ 0x0A) (h2 : b ≠ 0x0D) :
    read_in_rpeg_data (0x43 :: b :: t) = .err (.expectedNewlineFound b) := by
  simp only [read_in_rpeg_data, expect_headerTag_C, expect_newline_not_nl b t h1 h2]

/-! ### Claims -/

/-- Claim C1: the spec asserts `decode(encode(W, width, height)) = (W, width,
height)` for all inputs. On this revision the round-trip never succeeds: the
literal matcher consumes only the leading `C` of the tag (early return), so
decoding any encoder output fails at the second byte `o` (0x6F) with the
"Expected newline byte(s), found 0x6F" error. -/
theorem roundtrip_decode_of_encode_always_errors (ws : List Word) (w h : Nat) :
    read_in_rpeg_data (output_rpeg_data ws w h []) = .err (.expectedNewlineFound 0x6F) := by
  rw [output_rpeg_data_eq, headerTag_bytes]
  simp only [List.nil_append, List.cons_append, List.append_assoc]
  exact read_in_rpeg_data_c_bad_newline 0x6F _ (by decide) (by decide)

/-- Claim C2: the concrete scenario. Encoding `([0x00112233, 0x44556677]`-words,
`2, 1)` does reproduce the scenario's exact byte sequence, but decoding that
byte sequence does not succeed: it fails with the newline error at the tag's
second byte, again because `expect` checks only the first literal byte. -/
theorem concrete_scenario_behavior :
    read_in_rpeg_data (asciiBytes "Compressed image format 2\n2 1\n"
        ++ [0x00, 0x11, 0x22, 0x33, 0x44, 0x55, 0x66, 0x77])
      = .err (.expectedNewlineFound 0x6F)
    ∧ output_rpeg_data [⟨0x00, 0x11, 0x22, 0x33⟩, ⟨0x44, 0x55, 0x66, 0x77⟩] 2 1 []
      = asciiBytes "Compressed image format 2\n2 1\n"
        ++ [0x00, 0x11, 0x22, 0x33, 0x44, 0x55, 0x66, 0x77] :=
  ⟨rfl, rfl⟩

/-- Claim C3: the spec asserts the tag literal is compared byte-by-byte and an
input starting with `"Compressed image format 1"` fails with `UnexpectedByte`
at the differing final byte. Instead, `expect` accepts after the first byte
(`C`), leaving the rest of the literal unconsumed, and the decode then fails in
`expect_newline` on the second input byte `o` (0x6F) — a different position
and a different error kind. -/
theorem literal_prefix_one_behavior (r : List Nat) :
    expect headerTag (asciiBytes "Compressed image format 1" ++ r)
      = .ok (asciiBytes "ompressed image format 1" ++ r)
    ∧ read_in_rpeg_data (asciiBytes "Compressed image format 1" ++ r)
      = .err (.expectedNewlineFound 0x6F) := by
  have h : asciiBytes "Compressed image format 1"
      = 0x43 :: asciiBytes "ompressed image format 1" := rfl
  have h2 : asciiBytes "ompressed image format 1"
      = 0x6F :: asciiBytes "mpressed image format 1" := rfl
  constructor
  · rw [h, List.cons_append, expect_headerTag_C]
  · rw [h, h2, List.cons_append, List.cons_append]
    exact read_in_rpeg_data_c_bad_newline 0x6F _ (by decide) (by decide)

/-- Claim C4: the spec asserts LF, CRLF and bare CR are all accepted line
terminators. In the code LF and CRLF are accepted, but a CR not followed by LF
is rejected with the "Unsupported line ending" error (the LF after CR is
required, despite the source's own `\r[\n]` comment); consequently a bare-CR
header such as `C\r2 1\r` + payload fails to decode. -/
theorem newline_handling (r : List Nat) :
    expect_newline (0x0A :: r) = .ok r
    ∧ expect_newline (0x0D :: 0x0A :: r) = .ok r
    ∧ expect_newline (0x0D :: 0x32 :: r) = .error .unsupportedLineEnding
    ∧ expect_newline [0x0D] = .error .unsupportedLineEnding
    ∧ read_in_rpeg_data (asciiBytes "C\r2 1\r" ++ [0x01, 0x02, 0x03, 0x04])
      = .err .unsupportedLineEnding := by
  refine ⟨expect_newline_lf r, expect_newline_crlf r, ?_, rfl, rfl⟩
  simp [expect_newline]

/-- Claim C5: the spec asserts a payload whose length is not a multiple of 4
yields a `MisalignedPayload` error returned to the caller with no panic, and
that an aligned payload always groups. In the code the misaligned case hits
`panic!("The number of raw bytes was not a multiple of four")` — a process
abort, not a returned error (contradicting the function's own doc, which lists
this under "Errors Returned") — while the aligned case indeed groups losslessly. -/
theorem misaligned_payload_behavior (payload : List Nat) :
    (payload.length % 4 ≠ 0 →
      read_in_rpeg_data ([0x43, 0x0A, 0x31, 0x20, 0x31, 0x0A] ++ payload) = .fatal misalignedMsg)
    ∧ (payload.length % 4 = 0 →
      read_in_rpeg_data ([0x43, 0x0A, 0x31, 0x20, 0x31, 0x0A] ++ payload)
          = .ok (group4 payload) 1 1
        ∧ (group4 payload).flatMap wordBytes = payload) := by
  have h := read_in_rpeg_data_c_shape [0x0A] [0x0A] [0x31] [0x31] payload (Or.inl rfl) (Or.inl rfl)
      (by decide) (by decide) (by decide) (by decide)
  simp only [List.cons_append, List.nil_append] at h
  rw [show accumulateDecimal [0x31] = 1 from rfl] at h
  have hin : ([0x43, 0x0A, 0x31, 0x20, 0x31, 0x0A] : List Nat) ++ payload
      = 0x43 :: 0x0A :: 0x31 :: 0x20 :: 0x31 :: 0x0A :: payload := by simp
  rw [hin, h]
  constructor
  · intro hne
    simp [hne]
  · intro heq
    refine ⟨?_, group4_flatMap payload heq⟩
    simp [heq]

/-- Witness for C5 at concrete inputs: a 1-byte payload aborts; a 4-byte
payload decodes to one word. -/
theorem misaligned_payload_behavior_witness :
    read_in_rpeg_data [0x43, 0x0A, 0x31, 0x20, 0x31, 0x0A, 0xAA] = .fatal misalignedMsg
    ∧ read_in_rpeg_data [0x43, 0x0A, 0x31, 0x20, 0x31, 0x0A, 0x01, 0x02, 0x03, 0x04]
      = .ok [⟨0x01, 0x02, 0x03, 0x04⟩] 1 1 :=
  ⟨(misaligned_payload_behavior [0xAA]).1 (by decide),
   ((misaligned_payload_behavior [0x01, 0x02, 0x03, 0x04]).2 (by decide)).1⟩

/-- Claim C6 counterexample: the spec asserts `"4294967296"` fails with
`IntegerOverflow`. It does not fail: the unchecked `u32` accumulation wraps,
and `read_u32` returns `Ok(0)` with the input exhausted. -/
theorem digit_overflow_no_error :
    read_u32 (asciiBytes "4294967296") = .ok (0, []) := rfl

/-- Claim C6 as amended: `"0"` parses to 0 and `"4294967295"` to the maximum
`u32`, but `"4294967296"` parses "successfully" to `4294967296 % 2^32 = 0` —
overflow is neither detected nor reported (no `IntegerOverflow` error exists;
a debug build would abort on the overflowing multiply instead of wrapping). -/
theorem digit_boundary_amended :
    read_u32 (asciiBytes "0") = .ok (0, [])
    ∧ read_u32 (asciiBytes "4294967295") = .ok (4294967295, [])
    ∧ read_u32 (asciiBytes "4294967296") = .ok (4294967296 % 4294967296, []) :=
  ⟨rfl, rfl, rfl⟩

/-- Claim C7: the decimal parsing contract of `read_u32`: an absent or
non-digit first byte gives the expected-number error; otherwise exactly the
maximal leading digit run is consumed (every consumed byte is a digit, the
first unconsumed byte — if any — is not), and the value accumulated from that
run in base 10 (`u32` arithmetic) is returned together with the unconsumed
remainder. -/
theorem read_u32_parsing_contract (bs : List Nat) :
    read_u32 bs =
      (match bs.head? with
       | none => .error .expectedNumber
       | some b =>
         if is_ascii_digit b then
           .ok (accumulateDecimal (bs.takeWhile is_ascii_digit), bs.dropWhile is_ascii_digit)
         else .error .expectedNumber)
    ∧ (bs.takeWhile is_ascii_digit).all is_ascii_digit = true
    ∧ ((bs.dropWhile is_ascii_digit).head?.all fun b => ! is_ascii_digit b) = true
    ∧ bs.takeWhile is_ascii_digit ++ bs.dropWhile is_ascii_digit = bs := by
  refine ⟨read_u32_eq bs, ?_, ?_, List.takeWhile_append_dropWhile is_ascii_digit bs⟩
  · rw [List.all_eq_true]
    exact fun x hx => List.mem_takeWhile_imp hx
  · cases hh : (bs.dropWhile is_ascii_digit).head? with
    | none => rfl
    | some b =>
      have hnd := List.head?_dropWhile_not is_ascii_digit bs
      rw [hh] at hnd
      simp only [Option.all_some, Bool.not_eq_true']
      exact hnd

/-- Claim C8: the encoder writes exactly the tag literal, one LF, the decimal
width, one space, the decimal height, one LF, then the words' raw bytes
concatenated — and the dimension texts really are decimal: all their bytes are
ASCII digits and reading them back in base 10 returns the dimension. -/
theorem encoder_output_format (ws : List Word) (w h : Nat) :
    output_rpeg_data ws w h [] = encoderSpecBytes ws w h
    ∧ (decimalBytes w).all is_ascii_digit = true
    ∧ (decimalBytes h).all is_ascii_digit = true
    ∧ (decimalBytes w).foldl (fun a b => a * 10 + (b - 0x30)) 0 = w
    ∧ (decimalBytes h).foldl (fun a b => a * 10 + (b - 0x30)) 0 = h := by
  refine ⟨?_, decimalBytes_digits w, decimalBytes_digits h, decimalBytes_val w, decimalBytes_val h⟩
  rw [output_rpeg_data_eq]
  simp [encoderSpecBytes]

/-- Claim C9: the literal matcher returns success after comparing only the
first byte of a multi-byte literal, leaving the rest unconsumed; consequently
an input of the single byte `C`, a newline (LF or CRLF), a digit run, a space,
a digit run, a newline (LF or CRLF) and a 4-aligned payload decodes
successfully to the parsed dimensions and the payload grouped into words. -/
theorem expect_first_byte_bug_consequence
    (e : Nat) (es : List Nat) (t : List Nat)
    (nl1 nl2 d1 d2 payload : List Nat)
    (h1 : nl1 = [0x0A] ∨ nl1 = [0x0D, 0x0A]) (h2 : nl2 = [0x0A] ∨ nl2 = [0x0D, 0x0A])
    (hd1ne : d1 ≠ []) (hd1 : ∀ b ∈ d1, is_ascii_digit b = true)
    (hd2ne : d2 ≠ []) (hd2 : ∀ b ∈ d2, is_ascii_digit b = true)
    (hpay : payload.length % 4 = 0) :
    expect (e :: es) (e :: t) = .ok t
    ∧ read_in_rpeg_data (0x43 :: (nl1 ++ (d1 ++ (0x20 :: (d2 ++ (nl2 ++ payload))))))
      = .ok (group4 payload) (accumulateDecimal d1) (accumulateDecimal d2) := by
  constructor
  · simp [expect]
  · rw [read_in_rpeg_data_c_shape nl1 nl2 d1 d2 payload h1 h2 hd1ne hd1 hd2ne hd2]
    simp [hpay]

/-- Witness for C9: two-byte literal accepted after its first byte; the
one-`C` header `C\n2 1\r\n` with a 4-byte payload decodes to one word with
width 2 and height 1. -/
theorem expect_first_byte_bug_consequence_witness :
    expect [0x41, 0x42] [0x41, 0x99] = .ok [0x99]
    ∧ read_in_rpeg_data (0x43 :: ([0x0A] ++ ([0x32] ++ (0x20 ::
        ([0x31] ++ ([0x0D, 0x0A] ++ [0x01, 0x02, 0x03, 0x04]))))))
      = .ok (group4 [0x01, 0x02, 0x03, 0x04]) (accumulateDecimal [0x32])
          (accumulateDecimal [0x31]) :=
  expect_first_byte_bug_consequence 0x41 [0x42] [0x99] [0x0A] [0x0D, 0x0A] [0x32] [0x31]
    [0x01, 0x02, 0x03, 0x04] (Or.inl rfl) (Or.inr rfl) (by decide) (by decide) (by decide)
    (by decide) (by decide)

/-- Claim C10: the debug formatter writes exactly the debug tag line, the
`width height` line, and each word byte as an upper-case two-digit hex pair,
pairs separated by single spaces with no leading separator and no trailing
newline; each rendered pair is two upper-case-hex characters. -/
theorem debug_formatter_output (ws : List Word) (w h : Nat)
    (hb : ∀ b ∈ ws.flatMap wordBytes, b < 256) :
    debug_output_rpeg_data ws w h = debugSpecBytes ws w h
    ∧ ((ws.flatMap wordBytes).map hexPairBytes).all
        (fun p => (p.length == 2) && p.all isUpperHexByte) = true := by
  refine ⟨debug_output_rpeg_data_eq ws w h, ?_⟩
  rw [List.all_eq_true]
  intro p hp
  rw [List.mem_map] at hp
  obtain ⟨b, hbmem, rfl⟩ := hp
  have h2 := hexPairBytes_upper b (hb b hbmem)
  simp only [Bool.and_eq_true, beq_iff_eq]
  exact ⟨h2.1, h2.2⟩

/-- Witness for C10 at a concrete word. -/
theorem debug_formatter_output_witness :
    debug_output_rpeg_data [⟨0x00, 0x11, 0x22, 0x33⟩] 2 1
      = debugSpecBytes [⟨0x00, 0x11, 0x22, 0x33⟩] 2 1
    ∧ (((([⟨0x00, 0x11, 0x22, 0x33⟩] : List Word).flatMap wordBytes).map hexPairBytes).all
        (fun p => (p.length == 2) && p.all isUpperHexByte)) = true :=
  debug_formatter_output [⟨0x00, 0x11, 0x22, 0x33⟩] 2 1 (by decide)

end Rpegio
